import Mathlib

/-!
Shallow embedding of the campaign execution engine:
`src/utils/humanization.js`, `src/utils/accountManager.js` and
`src/modules/interactionModule.js`.

Modelling conventions:
* `Math.random()` draws are explicit rational parameters `r` with
  `0 ≤ r < 1`; a loop that draws repeatedly receives a stream
  `Nat → ℚ` indexed by the loop variable.
* JS numbers that the code treats as integers are `ℤ` (or `ℕ` for
  indices); `Math.floor` on a rational is `Int.floor`.
* A JS value that may be `undefined`/`null` is an `Option`; JS
  truthiness on strings (`"" `falsy) and on numbers (`0` falsy) is
  made explicit (`truthyStr`, `jsOrInt`).
* A `throw`ing unit of work is `Except String ρ`, carrying the
  error message.
-/

namespace TiktokBot

/-- `randomInt(min, max)` of humanization.js:
`Math.floor(Math.random() * (max - min + 1)) + min`. -/
def randomInt (r : ℚ) (mn mx : ℤ) : ℤ :=
  ⌊r * ((mx : ℚ) - (mn : ℚ) + 1)⌋ + mn

/-- The duration drawn by `randomDelay(min, max)` of humanization.js
(line 12): `Math.floor(Math.random() * (max - min + 1)) + min`. -/
def randomDelayDuration (r : ℚ) (mn mx : ℤ) : ℤ :=
  ⌊r * ((mx : ℚ) - (mn : ℚ) + 1)⌋ + mn

/-- `randomChoice(array)` of humanization.js:
`array[Math.floor(Math.random() * array.length)]`.
JS out-of-range indexing yields `undefined` (it does not throw), so the
result is an `Option`; `none` models `undefined`. -/
def randomChoice (r : ℚ) (xs : List α) : Option α :=
  xs[(⌊r * (xs.length : ℚ)⌋).toNat]?

/-- `generateWatchTime(videoDuration, minWatchPercent, maxWatchPercent)`
of humanization.js:
`watchPercent = Math.random() * (maxPct - minPct) + minPct;`
`return Math.floor(videoDuration * 1000 * watchPercent)`. -/
def generateWatchTime (r : ℚ) (videoDuration minPct maxPct : ℚ) : ℤ :=
  ⌊videoDuration * 1000 * (r * (maxPct - minPct) + minPct)⌋

/-- One JS array-destructuring swap
`[a[i], a[j]] = [a[j], a[i]]` for in-range indices; out of range the
code never reaches this (kept as identity there). -/
def listSwap (xs : List α) (i j : Nat) : List α :=
  match xs[i]?, xs[j]? with
  | some a, some b => (xs.set i b).set j a
  | _, _ => xs

/-- The loop of `shuffleArray` (Fisher–Yates), counting the loop
variable `i` down from `length - 1` to `1`; draw `rand i` picks
`j = Math.floor(rand i * (i + 1))`. -/
def fyLoop (rand : Nat → ℚ) : Nat → List α → List α
  | 0, ys => ys
  | i + 1, ys =>
      fyLoop rand i
        (listSwap ys (i + 1) (⌊rand (i + 1) * ((i : ℚ) + 2)⌋).toNat)

/-- `shuffleArray(array)` of humanization.js: copies the input
(`const shuffled = [...array]`, the copy is value-identity here) and
runs the Fisher–Yates loop on the copy. -/
def shuffleArray (rand : Nat → ℚ) (xs : List α) : List α :=
  fyLoop rand (xs.length - 1) xs

/-! ## A tiny store of JS arrays, to state mutation/aliasing claims

JS arrays are references into a heap; `[...a]` allocates a fresh
array. Cells are addressed by allocation index. -/

/-- A heap of JS arrays of `α`; a reference is an index into `cells`. -/
structure Heap (α : Type) where
  cells : List (List α)
deriving Repr

/-- Read the array behind reference `r` (a dangling reference reads as
the empty array; the embedded code only reads live references). -/
def Heap.read (h : Heap α) (r : Nat) : List α :=
  (h.cells[r]?).getD []

/-- Overwrite the array behind reference `r`. -/
def Heap.write (h : Heap α) (r : Nat) (xs : List α) : Heap α :=
  ⟨h.cells.set r xs⟩

/-- Allocate a fresh array holding `xs`; returns the new heap and the
fresh reference. -/
def Heap.alloc (h : Heap α) (xs : List α) : Heap α × Nat :=
  (⟨h.cells ++ [xs]⟩, h.cells.length)

/-- The Fisher–Yates loop of `shuffleArray`, acting on the heap cell
`s` (the code's `shuffled` variable). -/
def fyLoopH (rand : Nat → ℚ) (s : Nat) : Nat → Heap α → Heap α
  | 0, h => h
  | i + 1, h =>
      fyLoopH rand s i
        (h.write s (listSwap (h.read s) (i + 1)
          (⌊rand (i + 1) * ((i : ℚ) + 2)⌋).toNat))

/-- `shuffleArray(array)` at the heap level: `const shuffled =
[...array]` allocates a copy, the loop mutates only the copy, and the
copy's reference is returned. -/
def shuffleArrayH (rand : Nat → ℚ) (h : Heap α) (arr : Nat) :
    Heap α × Nat :=
  let (h1, s) := h.alloc (h.read arr)
  (fyLoopH rand s ((h1.read s).length - 1) h1, s)

/-! ## Account manager (`src/utils/accountManager.js`) -/

/-- One entry of `config.accounts`. Fields the validator touches are
string-or-absent; `cookies` is the optional cookie map (an assoc
list). -/
structure Account where
  username : Option String
  sessionId : Option String
  userAgent : Option String
  msToken : Option String
  cookies : List (String × String)
deriving DecidableEq, Repr

/-- JS truthiness of a string-or-undefined value: `undefined` and the
empty string are falsy. -/
def truthyStr : Option String → Bool
  | some s => !(s = "")
  | none => false

/-- Look up a cookie entry by name (first match, as `cookies[key]`
would on a plain object with unique keys). -/
def cookieGet (a : Account) (k : String) : Option String :=
  (a.cookies.find? (fun p => p.1 = k)).map (·.2)

/-- `AccountManager.validateAccount(account)`: iterates the required
fields `['username', 'sessionId', 'userAgent']` and returns `false` at
the first falsy one, else `true`. -/
def validateAccount (a : Account) : Bool :=
  truthyStr a.username && truthyStr a.sessionId && truthyStr a.userAgent

/-- The `AccountManager` state the claims touch: the stored
`this.accounts` list. -/
structure AccountManager where
  accounts : List Account
deriving DecidableEq, Repr

/-- `AccountManager.getValidAccounts()`:
`this.accounts.filter(acc => this.validateAccount(acc))`. The second
component is the manager state after the call (`filter` builds a new
array; the code never assigns to `this.accounts` here). -/
def getValidAccounts (m : AccountManager) :
    List Account × AccountManager :=
  (m.accounts.filter validateAccount, m)

/-! ## Interaction module (`src/modules/interactionModule.js`) -/

/-- JS `x || default` on a number-or-undefined config field: both
`undefined` and `0` are falsy and select the default. -/
def jsOrInt : Option ℤ → ℤ → ℤ
  | none, d => d
  | some v, d => if v = 0 then d else v

/-- The literal pattern `/video/` of the regex `\/video\/(\d+)`. -/
def videoPat : List Char := ['/', 'v', 'i', 'd', 'e', 'o', '/']

/-- Leftmost match of `\/video\/(\d+)`: at each position, if `/video/`
starts here and at least one digit follows, capture the maximal digit
run; otherwise keep scanning. -/
def extractVideoIdAux : List Char → Option (List Char)
  | [] => none
  | c :: cs =>
      if videoPat.isPrefixOf (c :: cs) then
        let ds := ((c :: cs).drop 7).takeWhile Char.isDigit
        if ds.isEmpty then extractVideoIdAux cs else some ds
      else extractVideoIdAux cs

/-- `InteractionModule.extractVideoId(url)`:
`url.match(/\/video\/(\d+)/)`, returning the capture or `null`. -/
def extractVideoId (url : String) : Option String :=
  (extractVideoIdAux url.toList).map List.asString

/-- A TikTok client bound to one account: its unit of work either
returns a payload `ρ` or throws with a message. `postComment` receives
the target video id and the (possibly `undefined`) comment text;
`likeComment` receives the comment id and the action flag. -/
structure Client (ρ : Type) where
  username : String
  postComment : String → Option String → Except String ρ
  likeComment : String → ℤ → Except String ρ

/-- One entry of the report returned by `massComment`: success entries
are `{account, success: true, comment, result}` and failures
`{account, success: false, error}` (the `result` payload is not
modelled; `comment`/`error` are absent, i.e. `none`, on the other
branch). -/
structure MCResult where
  account : String
  success : Bool
  comment : Option String
  error : Option String
deriving DecidableEq, Repr

/-- One entry of the report returned by `massLikeComment`. -/
structure MLResult where
  account : String
  success : Bool
  error : Option String
deriving DecidableEq, Repr

/-- The `config` argument of `massComment`. -/
structure MassCommentConfig where
  videoId : Option String
  videoUrl : Option String
  comments : List String
  randomizeOrder : Bool
  delayBetweenCommentsMin : Option ℤ
  delayBetweenCommentsMax : Option ℤ

/-- The `config` argument of `massLikeComment`. -/
structure MassLikeConfig where
  commentId : Option String
  delayBetweenLikesMin : Option ℤ
  delayBetweenLikesMax : Option ℤ

/-- `config.videoId || InteractionModule.extractVideoId(config.videoUrl)`
followed by the `if (!videoId) throw` truthiness test. An undefined
`videoUrl` makes `url.match` throw inside `extractVideoId`, whose
`catch` returns `null`. -/
def resolveVideoId (cfg : MassCommentConfig) : Option String :=
  let vid :=
    if truthyStr cfg.videoId then cfg.videoId
    else cfg.videoUrl.bind extractVideoId
  if truthyStr vid then vid else none

/-- `const commentId = config.commentId; if (!commentId) throw`. -/
def resolveCommentId (cfg : MassLikeConfig) : Option String :=
  if truthyStr cfg.commentId then cfg.commentId else none

/-- `comments[i % comments.length]`: on an empty list the index is
`NaN` and the read yields `undefined` (`none`). -/
def commentAt (cs : List String) (i : Nat) : Option String :=
  if cs.length = 0 then none else cs[i % cs.length]?

/-- The comment list massComment actually uses: the copy of
`config.comments`, shuffled when `config.randomizeOrder` is set. -/
def massCommentComments (rand : Nat → ℚ) (cfg : MassCommentConfig) :
    List String :=
  if cfg.randomizeOrder then shuffleArray rand cfg.comments
  else cfg.comments

/-- The session loop of `massComment` from index `i`; returns the
report entries and, per session, the inter-session delay awaited after
that session (`none` when no delay was awaited). A success pushes the
success entry and, when not last (`i < clients.length - 1`), awaits
`randomDelay(dmin, dmax)` with draw `drand i`; a throw is caught at
the session boundary, pushes the failure entry with the error's
message, and awaits no delay (the `await randomDelay` sits inside the
`try`, after the success push). -/
def massCommentGo (drand : Nat → ℚ) (v : String) (cs : List String)
    (dmin dmax : ℤ) (total : Nat) :
    List (Client ρ) → Nat → List MCResult × List (Option ℤ)
  | [], _ => ([], [])
  | c :: rest, i =>
      let t := commentAt cs i
      let tl := massCommentGo drand v cs dmin dmax total rest (i + 1)
      match c.postComment v t with
      | .ok _ =>
          (⟨c.username, true, t, none⟩ :: tl.1,
           (if i + 1 < total
            then some (randomDelayDuration (drand i) dmin dmax)
            else none) :: tl.2)
      | .error m =>
          (⟨c.username, false, none, some m⟩ :: tl.1, none :: tl.2)

/-- `InteractionModule.massComment(clients, config)`: resolve the
video id (throws `'No valid video ID provided'` when unresolvable),
copy and optionally shuffle the comment list, then run the session
loop. `rand` feeds the shuffle, `drand` the inter-session delays. -/
def massComment (rand drand : Nat → ℚ) (clients : List (Client ρ))
    (cfg : MassCommentConfig) :
    Except String (List MCResult × List (Option ℤ)) :=
  match resolveVideoId cfg with
  | none => .error "No valid video ID provided"
  | some v =>
      .ok (massCommentGo drand v (massCommentComments rand cfg)
            (jsOrInt cfg.delayBetweenCommentsMin 5000)
            (jsOrInt cfg.delayBetweenCommentsMax 15000)
            clients.length clients 0)

/-- The session loop of `massLikeComment`, structured exactly like
`massCommentGo`; the unit of work is `client.likeComment(commentId, 1)`. -/
def massLikeGo (drand : Nat → ℚ) (cid : String) (dmin dmax : ℤ)
    (total : Nat) :
    List (Client ρ) → Nat → List MLResult × List (Option ℤ)
  | [], _ => ([], [])
  | c :: rest, i =>
      let tl := massLikeGo drand cid dmin dmax total rest (i + 1)
      match c.likeComment cid 1 with
      | .ok _ =>
          (⟨c.username, true, none⟩ :: tl.1,
           (if i + 1 < total
            then some (randomDelayDuration (drand i) dmin dmax)
            else none) :: tl.2)
      | .error m =>
          (⟨c.username, false, some m⟩ :: tl.1, none :: tl.2)

/-- `InteractionModule.massLikeComment(clients, config)`. -/
def massLikeComment (drand : Nat → ℚ) (clients : List (Client ρ))
    (cfg : MassLikeConfig) :
    Except String (List MLResult × List (Option ℤ)) :=
  match resolveCommentId cfg with
  | none => .error "No comment ID provided"
  | some cid =>
      .ok (massLikeGo drand cid
            (jsOrInt cfg.delayBetweenLikesMin 3000)
            (jsOrInt cfg.delayBetweenLikesMax 10000)
            clients.length clients 0)

/-- Whether a unit of work threw. -/
def exceptFailed : Except ε α → Bool
  | .ok _ => false
  | .error _ => true

/-- The unit-of-work outcomes of a `massComment` run, session by
session from index `i`. -/
def mcOutcomes (v : String) (cs : List String) :
    List (Client ρ) → Nat → List (Except String ρ)
  | [], _ => []
  | c :: rest, i =>
      c.postComment v (commentAt cs i) :: mcOutcomes v cs rest (i + 1)

/-- The unit-of-work outcomes of a `massLikeComment` run. -/
def mlOutcomes (cid : String) :
    List (Client ρ) → List (Except String ρ)
  | [] => []
  | c :: rest => c.likeComment cid 1 :: mlOutcomes cid rest

/-- `massComment` at the heap level, for the config-mutation claim:
the config's `comments` array lives in heap cell `commentsRef`; the
entry point copies it (`let comments = [...config.comments]`),
optionally shuffles the copy (which itself copies again), and the
session loop only reads the resulting cell. Returns the outcome
together with the final heap. -/
def massCommentH (rand drand : Nat → ℚ) (clients : List (Client ρ))
    (cfg : MassCommentConfig) (h : Heap String) (commentsRef : Nat) :
    Except String (List MCResult × List (Option ℤ)) × Heap String :=
  match resolveVideoId cfg with
  | none => (.error "No valid video ID provided", h)
  | some v =>
      let h1c := h.alloc (h.read commentsRef)
      let h2c :=
        if cfg.randomizeOrder then shuffleArrayH rand h1c.1 h1c.2
        else h1c
      (.ok (massCommentGo drand v (h2c.1.read h2c.2)
             (jsOrInt cfg.delayBetweenCommentsMin 5000)
             (jsOrInt cfg.delayBetweenCommentsMax 15000)
             clients.length clients 0),
       h2c.1)

/-! ## Concrete fixtures used by counterexamples and witnesses -/

/-- An account whose `sessionId` field is absent but whose cookie map
has a `sessionid` entry (as `TikTokClient` would accept). -/
def ce5Account : Account :=
  ⟨some "u", none, some "ua", none, [("sessionid", "x")]⟩

/-- A client whose comment unit of work throws. -/
def ceClientFail : Client Unit :=
  ⟨"alice", fun _ _ => .error "boom", fun _ _ => .ok ()⟩

/-- A client whose units of work succeed. -/
def ceClientOk : Client Unit :=
  ⟨"bob", fun _ _ => .ok (), fun _ _ => .ok ()⟩

/-- A mass-commenting config with a direct video id and one comment. -/
def ceCfg : MassCommentConfig :=
  ⟨some "123", none, ["hi"], false, none, none⟩

/-- A comment-liking config with a direct comment id. -/
def ceLikeCfg : MassLikeConfig :=
  ⟨some "c9", none, none⟩

/-! ## Helper lemmas -/

/-- A unit-interval draw scaled by a positive integer and floored
lands in `[0, n-1]`. -/
theorem floor_mul_int_bounds (r : ℚ) (n : ℤ) (h0 : 0 ≤ r) (h1 : r < 1)
    (hn : 0 < n) : 0 ≤ ⌊r * (n : ℚ)⌋ ∧ ⌊r * (n : ℚ)⌋ < n := by
  constructor
  · exact Int.floor_nonneg.mpr (mul_nonneg h0 (by exact_mod_cast hn.le))
  · rw [Int.floor_lt]
    exact mul_lt_of_lt_one_left (by exact_mod_cast hn) h1

/-- Moving an element out of position `m` to the front, putting `x`
there instead, permutes `x :: t`. -/
theorem perm_cons_set (t : List α) : ∀ (m : Nat) (b x : α),
    t[m]? = some b → List.Perm (b :: t.set m x) (x :: t) := by
  induction t with
  | nil => intro m b x h; simp at h
  | cons y t' ih =>
    intro m b x h
    cases m with
    | zero =>
      simp only [List.getElem?_cons_zero, Option.some.injEq] at h
      subst h
      simpa [List.set] using List.Perm.swap x y t'
    | succ m' =>
      simp only [List.getElem?_cons_succ] at h
      have h1 := ih m' b x h
      show List.Perm (b :: y :: t'.set m' x) (x :: y :: t')
      exact (List.Perm.swap y b _).trans
        ((h1.cons y).trans (List.Perm.swap x y t'))

/-- The JS destructuring swap permutes the list. -/
theorem listSwap_perm : ∀ (xs : List α) (i j : Nat),
    List.Perm (listSwap xs i j) xs := by
  intro xs
  induction xs with
  | nil => intro i j; simp [listSwap]
  | cons x t ih =>
    intro i j
    cases i with
    | zero =>
      cases j with
      | zero =>
        simp [listSwap, List.set]
      | succ k =>
        cases hk : t[k]? with
        | none => simp [listSwap, hk]
        | some b =>
          simp only [listSwap, List.getElem?_cons_zero,
            List.getElem?_cons_succ, hk]
          simpa [List.set] using perm_cons_set t k b x hk
    | succ m =>
      cases hm : t[m]? with
      | none =>
        cases j with
        | zero => simp [listSwap, hm]
        | succ k => simp [listSwap, hm]
      | some a =>
        cases j with
        | zero =>
          simp only [listSwap, List.getElem?_cons_succ,
            List.getElem?_cons_zero, hm]
          simpa [List.set] using perm_cons_set t m a x hm
        | succ k =>
          cases hk : t[k]? with
          | none => simp [listSwap, hm, hk]
          | some b =>
            have h2 := ih m k
            simp only [listSwap, hm, hk] at h2
            simp only [listSwap, List.getElem?_cons_succ, hm, hk]
            simpa [List.set] using h2.cons x

/-- The Fisher–Yates loop permutes its argument. -/
theorem fyLoop_perm (rand : Nat → ℚ) :
    ∀ (n : Nat) (ys : List α), List.Perm (fyLoop rand n ys) ys := by
  intro n
  induction n with
  | zero => intro ys; exact List.Perm.refl ys
  | succ i ih =>
    intro ys
    exact (ih _).trans (listSwap_perm ys (i + 1) _)

/-- `shuffleArray` returns a permutation of its input. -/
theorem shuffleArray_perm (rand : Nat → ℚ) (xs : List α) :
    List.Perm (shuffleArray rand xs) xs :=
  fyLoop_perm rand (xs.length - 1) xs

/-- Allocation preserves the content of live references. -/
theorem Heap.read_alloc_lt (h : Heap α) (xs : List α) (r : Nat)
    (hr : r < h.cells.length) : (h.alloc xs).1.read r = h.read r := by
  simp [Heap.alloc, Heap.read, List.getElem?_append_left hr]

/-- Reading back a freshly allocated array. -/
theorem Heap.read_alloc_self (h : Heap α) (xs : List α) :
    (h.alloc xs).1.read (h.alloc xs).2 = xs := by
  simp [Heap.alloc, Heap.read, List.getElem?_concat_length]

/-- Writing one cell leaves every other cell unchanged. -/
theorem Heap.read_write_ne (h : Heap α) (s t : Nat) (v : List α)
    (hne : t ≠ s) : (h.write s v).read t = h.read t := by
  simp [Heap.write, Heap.read, List.getElem?_set_ne (fun e => hne e.symm)]

/-- Reading back a written live cell. -/
theorem Heap.read_write_self (h : Heap α) (s : Nat) (v : List α)
    (hs : s < h.cells.length) : (h.write s v).read s = v := by
  simp [Heap.write, Heap.read, List.getElem?_set_self, hs]

/-- Writing does not change the number of cells. -/
theorem Heap.write_length (h : Heap α) (s : Nat) (v : List α) :
    (h.write s v).cells.length = h.cells.length := by
  simp [Heap.write]

/-- The heap-level Fisher–Yates loop never touches cells other than
its own `s`. -/
theorem fyLoopH_read_ne (rand : Nat → ℚ) (s t : Nat) (hne : t ≠ s) :
    ∀ (n : Nat) (h : Heap α), (fyLoopH rand s n h).read t = h.read t := by
  intro n
  induction n with
  | zero => intro h; rfl
  | succ i ih =>
    intro h
    rw [fyLoopH, ih, Heap.read_write_ne _ _ _ _ hne]

/-- On its own cell, the heap-level Fisher–Yates loop computes exactly
the pure `fyLoop`. -/
theorem fyLoopH_read_self (rand : Nat → ℚ) (s : Nat) :
    ∀ (n : Nat) (h : Heap α), s < h.cells.length →
      (fyLoopH rand s n h).read s = fyLoop rand n (h.read s) := by
  intro n
  induction n with
  | zero => intro h _; rfl
  | succ i ih =>
    intro h hs
    rw [fyLoopH, fyLoop,
      ih _ (by rw [Heap.write_length]; exact hs),
      Heap.read_write_self _ _ _ hs]

/-- `shuffleArray` at the heap level: all pre-existing cells keep
their content (in particular the argument array is not mutated). -/
theorem shuffleArrayH_frame (rand : Nat → ℚ) (h : Heap α)
    (arr t : Nat) (ht : t < h.cells.length) :
    (shuffleArrayH rand h arr).1.read t = h.read t := by
  rw [shuffleArrayH]
  have hne : t ≠ h.cells.length := Nat.ne_of_lt ht
  simp only [Heap.alloc]
  rw [fyLoopH_read_ne rand _ _ hne]
  show (Heap.alloc h (h.read arr)).1.read t = h.read t
  exact Heap.read_alloc_lt h _ t ht

/-- The reference `shuffleArrayH` returns is the fresh copy, and its
content is the pure `shuffleArray` of the argument's content. -/
theorem shuffleArrayH_result (rand : Nat → ℚ) (h : Heap α) (arr : Nat) :
    (shuffleArrayH rand h arr).2 = h.cells.length ∧
    (shuffleArrayH rand h arr).1.read (shuffleArrayH rand h arr).2 =
      shuffleArray rand (h.read arr) := by
  rw [shuffleArrayH]
  simp only [Heap.alloc]
  constructor
  · trivial
  · have hs : h.cells.length < (h.cells ++ [h.read arr]).length := by
      simp
    rw [fyLoopH_read_self rand _ _ _ hs]
    show fyLoop rand
        (((Heap.alloc h (h.read arr)).1.read (Heap.alloc h (h.read arr)).2).length - 1)
        ((Heap.alloc h (h.read arr)).1.read (Heap.alloc h (h.read arr)).2) =
      shuffleArray rand (h.read arr)
    rw [Heap.read_alloc_self, shuffleArray]

/-- Both lists `massCommentGo` builds have one entry per session. -/
theorem massCommentGo_length (drand : Nat → ℚ) (v : String)
    (cs : List String) (dmin dmax : ℤ) (total : Nat) :
    ∀ (clients : List (Client ρ)) (i : Nat),
      (massCommentGo drand v cs dmin dmax total clients i).1.length =
        clients.length ∧
      (massCommentGo drand v cs dmin dmax total clients i).2.length =
        clients.length := by
  intro clients
  induction clients with
  | nil => intro i; exact ⟨rfl, rfl⟩
  | cons c rest ih =>
    intro i
    rw [massCommentGo]
    cases hc : c.postComment v (commentAt cs i) with
    | ok p => simp [hc, (ih (i + 1)).1, (ih (i + 1)).2]
    | error m => simp [hc, (ih (i + 1)).1, (ih (i + 1)).2]

/-- Entrywise description of a `massCommentGo` run: the entry at
`idx` is determined by session `idx`'s unit-of-work outcome, and the
delay slot at `idx` is filled only on the success branch of a
non-final session. -/
theorem massCommentGo_get? (drand : Nat → ℚ) (v : String)
    (cs : List String) (dmin dmax : ℤ) (total : Nat) :
    ∀ (clients : List (Client ρ)) (i idx : Nat) (c : Client ρ),
      clients[idx]? = some c →
      (massCommentGo drand v cs dmin dmax total clients i).1[idx]? =
        some (match c.postComment v (commentAt cs (i + idx)) with
          | .ok _ => ⟨c.username, true, commentAt cs (i + idx), none⟩
          | .error m => ⟨c.username, false, none, some m⟩) ∧
      (massCommentGo drand v cs dmin dmax total clients i).2[idx]? =
        some (match c.postComment v (commentAt cs (i + idx)) with
          | .ok _ =>
              if i + idx + 1 < total
              then some (randomDelayDuration (drand (i + idx)) dmin dmax)
              else none
          | .error _ => none) := by
  intro clients
  induction clients with
  | nil => intro i idx c hc; simp at hc
  | cons c0 rest ih =>
    intro i idx c hc
    cases idx with
    | zero =>
      simp only [List.getElem?_cons_zero, Option.some.injEq] at hc
      subst hc
      rw [massCommentGo]
      cases h0 : c0.postComment v (commentAt cs i) with
      | ok p => simp [h0]
      | error m => simp [h0]
    | succ n =>
      simp only [List.getElem?_cons_succ] at hc
      have hrec := ih (i + 1) n c hc
      have e : i + 1 + n = i + (n + 1) := by omega
      rw [e] at hrec
      rw [massCommentGo]
      cases h0 : c0.postComment v (commentAt cs i) with
      | ok p =>
        simp only [h0]
        exact ⟨by simp [hrec.1], by simp [hrec.2]⟩
      | error m =>
        simp only [h0]
        exact ⟨by simp [hrec.1], by simp [hrec.2]⟩

/-- Success count bookkeeping: successes in the report plus throwing
units of work add up to the number of sessions. -/
theorem massCommentGo_countP (drand : Nat → ℚ) (v : String)
    (cs : List String) (dmin dmax : ℤ) (total : Nat) :
    ∀ (clients : List (Client ρ)) (i : Nat),
      (massCommentGo drand v cs dmin dmax total clients i).1.countP
          (fun r => r.success) +
        (mcOutcomes v cs clients i).countP (fun o => exceptFailed o) =
        clients.length := by
  intro clients
  induction clients with
  | nil => intro i; rfl
  | cons c rest ih =>
    intro i
    have hrec := ih (i + 1)
    rw [massCommentGo, mcOutcomes]
    cases hc : c.postComment v (commentAt cs i) with
    | ok p =>
      simp only [exceptFailed] at hrec
      simp [hc, List.countP_cons, exceptFailed]
      omega
    | error m =>
      simp only [exceptFailed] at hrec
      simp [hc, List.countP_cons, exceptFailed]
      omega

/-- Both lists `massLikeGo` builds have one entry per session. -/
theorem massLikeGo_length (drand : Nat → ℚ) (cid : String)
    (dmin dmax : ℤ) (total : Nat) :
    ∀ (clients : List (Client ρ)) (i : Nat),
      (massLikeGo drand cid dmin dmax total clients i).1.length =
        clients.length ∧
      (massLikeGo drand cid dmin dmax total clients i).2.length =
        clients.length := by
  intro clients
  induction clients with
  | nil => intro i; exact ⟨rfl, rfl⟩
  | cons c rest ih =>
    intro i
    rw [massLikeGo]
    cases hc : c.likeComment cid 1 with
    | ok p => simp [hc, (ih (i + 1)).1, (ih (i + 1)).2]
    | error m => simp [hc, (ih (i + 1)).1, (ih (i + 1)).2]

/-- Entrywise description of a `massLikeGo` run. -/
theorem massLikeGo_get? (drand : Nat → ℚ) (cid : String)
    (dmin dmax : ℤ) (total : Nat) :
    ∀ (clients : List (Client ρ)) (i idx : Nat) (c : Client ρ),
      clients[idx]? = some c →
      (massLikeGo drand cid dmin dmax total clients i).1[idx]? =
        some (match c.likeComment cid 1 with
          | .ok _ => ⟨c.username, true, none⟩
          | .error m => ⟨c.username, false, some m⟩) ∧
      (massLikeGo drand cid dmin dmax total clients i).2[idx]? =
        some (match c.likeComment cid 1 with
          | .ok _ =>
              if i + idx + 1 < total
              then some (randomDelayDuration (drand (i + idx)) dmin dmax)
              else none
          | .error _ => none) := by
  intro clients
  induction clients with
  | nil => intro i idx c hc; simp at hc
  | cons c0 rest ih =>
    intro i idx c hc
    cases idx with
    | zero =>
      simp only [List.getElem?_cons_zero, Option.some.injEq] at hc
      subst hc
      rw [massLikeGo]
      cases h0 : c0.likeComment cid 1 with
      | ok p => simp [h0]
      | error m => simp [h0]
    | succ n =>
      simp only [List.getElem?_cons_succ] at hc
      have hrec := ih (i + 1) n c hc
      have e : i + 1 + n = i + (n + 1) := by omega
      rw [e] at hrec
      rw [massLikeGo]
      cases h0 : c0.likeComment cid 1 with
      | ok p =>
        simp only [h0]
        exact ⟨by simp [hrec.1], by simp [hrec.2]⟩
      | error m =>
        simp only [h0]
        exact ⟨by simp [hrec.1], by simp [hrec.2]⟩

/-- Success count bookkeeping for `massLikeGo`. -/
theorem massLikeGo_countP (drand : Nat → ℚ) (cid : String)
    (dmin dmax : ℤ) (total : Nat) :
    ∀ (clients : List (Client ρ)) (i : Nat),
      (massLikeGo drand cid dmin dmax total clients i).1.countP
          (fun r => r.success) +
        (mlOutcomes cid clients).countP (fun o => exceptFailed o) =
        clients.length := by
  intro clients
  induction clients with
  | nil => intro i; rfl
  | cons c rest ih =>
    intro i
    have hrec := ih (i + 1)
    rw [massLikeGo, mlOutcomes]
    cases hc : c.likeComment cid 1 with
    | ok p =>
      simp only [exceptFailed] at hrec
      simp [hc, List.countP_cons, exceptFailed]
      omega
    | error m =>
      simp only [exceptFailed] at hrec
      simp [hc, List.countP_cons, exceptFailed]
      omega

/-! ## Claims -/

/-- C6: for integers `min ≤ max` and a unit draw, the duration drawn
by `delay(min, max)` (`randomDelay`) and the value of
`randomInt(min, max)` are integers in the closed interval
`[min, max]`; when `min = max` the value is exactly that number. -/
theorem claim6_randomInt_range (r : ℚ) (mn mx : ℤ) (h0 : 0 ≤ r)
    (h1 : r < 1) (hle : mn ≤ mx) :
    (mn ≤ randomInt r mn mx ∧ randomInt r mn mx ≤ mx) ∧
    (mn ≤ randomDelayDuration r mn mx ∧ randomDelayDuration r mn mx ≤ mx) ∧
    (mn = mx → randomInt r mn mx = mn ∧ randomDelayDuration r mn mx = mn) := by
  have hn : (0 : ℤ) < mx - mn + 1 := by omega
  have hb := floor_mul_int_bounds r (mx - mn + 1) h0 h1 hn
  have hcast : ((mx - mn + 1 : ℤ) : ℚ) = (mx : ℚ) - (mn : ℚ) + 1 := by
    push_cast
    ring
  rw [hcast] at hb
  unfold randomInt randomDelayDuration
  exact ⟨⟨by omega, by omega⟩, ⟨by omega, by omega⟩,
    fun he => ⟨by omega, by omega⟩⟩

/-- C6 witness: the theorem applied at `r = 1/2`, `min = 2`,
`max = 5`. -/
theorem claim6_witness :
    ((2 : ℤ) ≤ randomInt (1/2) 2 5 ∧ randomInt (1/2) 2 5 ≤ 5) ∧
    ((2 : ℤ) ≤ randomDelayDuration (1/2) 2 5 ∧
      randomDelayDuration (1/2) 2 5 ≤ 5) ∧
    ((2 : ℤ) = 5 →
      randomInt (1/2) 2 5 = 2 ∧ randomDelayDuration (1/2) 2 5 = 2) :=
  claim6_randomInt_range (1/2) 2 5 (by norm_num) (by norm_num)
    (by norm_num)

/-- C4 counterexample: on the empty list `randomChoice` evaluates to
`undefined` (`none`); no `EmptyInputError` — or any error — is raised
(the function is total and errorless in the embedding, as JS indexing
out of range yields `undefined` rather than throwing). -/
theorem claim4_counterexample :
    randomChoice (0 : ℚ) ([] : List ℕ) = none := by
  rfl

/-- C4 (amended): for a unit draw, `choice(items)` returns `undefined`
(`none`) when `items` is empty — it does not fail with an
`EmptyInputError` — and returns an element of the list when `items` is
non-empty. -/
theorem claim4_randomChoice (r : ℚ) (xs : List α) (h0 : 0 ≤ r)
    (h1 : r < 1) :
    (xs = [] → randomChoice r xs = none) ∧
    (xs ≠ [] → ∃ a, randomChoice r xs = some a ∧ a ∈ xs) := by
  constructor
  · rintro rfl
    simp [randomChoice]
  · intro hne
    have hlen : 0 < xs.length := List.length_pos.mpr hne
    have hb := floor_mul_int_bounds r (xs.length : ℤ) h0 h1
      (by exact_mod_cast hlen)
    have hfe : ⌊r * (((xs.length : ℤ)) : ℚ)⌋ = ⌊r * (xs.length : ℚ)⌋ := by
      norm_cast
    rw [hfe] at hb
    have hlt : (⌊r * (xs.length : ℚ)⌋).toNat < xs.length := by omega
    refine ⟨xs[(⌊r * (xs.length : ℚ)⌋).toNat], ?_, List.getElem_mem hlt⟩
    rw [randomChoice]
    exact List.getElem?_eq_getElem hlt

/-- C4 witness: the amended theorem applied at `r = 1/2` and
`items = [10, 20, 30]`. -/
theorem claim4_witness :
    (([10, 20, 30] : List ℕ) = [] →
      randomChoice (1/2) ([10, 20, 30] : List ℕ) = none) ∧
    (([10, 20, 30] : List ℕ) ≠ [] →
      ∃ a, randomChoice (1/2) ([10, 20, 30] : List ℕ) = some a ∧
        a ∈ ([10, 20, 30] : List ℕ)) :=
  claim4_randomChoice (1/2) [10, 20, 30] (by norm_num) (by norm_num)

/-- C3 counterexample: at `d = 1/500`, `lo = 3/10`, `hi = 9/10` and
draw `r = 59/60` (so `p = 89/100`), `watchTime` evaluates to `1`,
which does not lie in `[⌊d*lo⌋, ⌊d*hi⌋) = [0, 0)`: the claim misses
the scaling of the duration into milliseconds (`* 1000`), and even
with that scaling the value `1` still misses `[⌊1000*d*lo⌋,
⌊1000*d*hi⌋) = [0, 1)` because the right end is reached when
`1000*d*hi` is not an integer. -/
theorem claim3_counterexample :
    ¬ (⌊((1 : ℚ)/500) * (3/10)⌋ ≤
          generateWatchTime (59/60) (1/500) (3/10) (9/10) ∧
        generateWatchTime (59/60) (1/500) (3/10) (9/10) <
          ⌊((1 : ℚ)/500) * (9/10)⌋) := by
  norm_num [generateWatchTime]

/-- C3 (amended): for `0 ≤ lo < hi ≤ 1`, a nonnegative duration `d`
(in seconds) and a unit draw, `watchTime(d, lo, hi)` returns
`⌊d * 1000 * p⌋` milliseconds for some `p ∈ [lo, hi)`, and the value
lies in the closed interval `[⌊1000*d*lo⌋, ⌊1000*d*hi⌋]` (the right
endpoint can be attained, so the interval is closed, not
half-open). -/
theorem claim3_generateWatchTime (r d lo hi : ℚ) (h0 : 0 ≤ r)
    (h1 : r < 1) (hd : 0 ≤ d) (hlo : 0 ≤ lo) (hlh : lo < hi)
    (hhi : hi ≤ 1) :
    (∃ p, lo ≤ p ∧ p < hi ∧
      generateWatchTime r d lo hi = ⌊d * 1000 * p⌋) ∧
    ⌊d * 1000 * lo⌋ ≤ generateWatchTime r d lo hi ∧
    generateWatchTime r d lo hi ≤ ⌊d * 1000 * hi⌋ := by
  have h1000 : (0 : ℚ) ≤ d * 1000 := by nlinarith
  have hplo : lo ≤ r * (hi - lo) + lo := by nlinarith
  have hphi : r * (hi - lo) + lo < hi := by
    have := mul_lt_of_lt_one_left (sub_pos.mpr hlh) h1
    linarith
  refine ⟨⟨r * (hi - lo) + lo, hplo, hphi, rfl⟩, ?_, ?_⟩
  · exact Int.floor_mono (mul_le_mul_of_nonneg_left hplo h1000)
  · exact Int.floor_mono (mul_le_mul_of_nonneg_left hphi.le h1000)

/-- C3 witness: the amended theorem applied at `r = 1/2`, `d = 10`,
`lo = 3/10`, `hi = 9/10`. -/
theorem claim3_witness :
    (∃ p, (3/10 : ℚ) ≤ p ∧ p < 9/10 ∧
      generateWatchTime (1/2) 10 (3/10) (9/10) = ⌊(10 : ℚ) * 1000 * p⌋) ∧
    ⌊(10 : ℚ) * 1000 * (3/10)⌋ ≤ generateWatchTime (1/2) 10 (3/10) (9/10) ∧
    generateWatchTime (1/2) 10 (3/10) (9/10) ≤ ⌊(10 : ℚ) * 1000 * (9/10)⌋ :=
  claim3_generateWatchTime (1/2) 10 (3/10) (9/10) (by norm_num)
    (by norm_num) (by norm_num) (by norm_num) (by norm_num) (by norm_num)

/-- C5 counterexample: for an account whose `sessionId` field is
absent but whose cookie map carries a `sessionid` entry,
`validateAccount` returns `false`, refuting the claimed equivalence
(`validate` does not accept an equivalent cookie field; only
`TikTokClient` falls back to `cookies.sessionid`). -/
theorem claim5_counterexample :
    ¬ (validateAccount ce5Account = true ↔
       (truthyStr ce5Account.username = true ∧
        (truthyStr ce5Account.sessionId = true ∨
         truthyStr (cookieGet ce5Account "sessionid") = true) ∧
        truthyStr ce5Account.userAgent = true)) := by
  decide

/-- C5 (amended): `validate(credential)` returns true iff the
`username`, `sessionId` and `userAgent` fields themselves are all
present and non-empty — a `sessionid` cookie entry does not
substitute for the `sessionId` field. Consequently an account missing
`userAgent` never appears in the valid-accounts output, and removing
such an invalid account from the stored list does not change which
other accounts appear in that output. -/
theorem claim5_validateAccount (a bad : Account)
    (pre post : List Account) (hbad : truthyStr bad.userAgent = false) :
    (validateAccount a = true ↔
      (truthyStr a.username = true ∧ truthyStr a.sessionId = true ∧
        truthyStr a.userAgent = true)) ∧
    bad ∉ (getValidAccounts ⟨pre ++ bad :: post⟩).1 ∧
    (getValidAccounts ⟨pre ++ bad :: post⟩).1 =
      (getValidAccounts ⟨pre ++ post⟩).1 := by
  have hbadv : validateAccount bad = false := by
    simp [validateAccount, hbad]
  refine ⟨?_, ?_, ?_⟩
  · simp only [validateAccount, Bool.and_eq_true]
    tauto
  · intro hmem
    have h2 := (List.mem_filter.mp hmem).2
    rw [hbadv] at h2
    exact Bool.false_ne_true h2
  · simp [getValidAccounts, List.filter_append, List.filter_cons, hbadv]

/-- C5 witness: the amended theorem applied to a fully valid account,
an account missing `userAgent`, and concrete surrounding lists. -/
theorem claim5_witness :
    ((validateAccount ⟨some "u", some "s", some "ua", none, []⟩ = true ↔
      (truthyStr (Account.username ⟨some "u", some "s", some "ua", none, []⟩) = true ∧
       truthyStr (Account.sessionId ⟨some "u", some "s", some "ua", none, []⟩) = true ∧
       truthyStr (Account.userAgent ⟨some "u", some "s", some "ua", none, []⟩) = true)) ∧
    (⟨some "b", some "s", none, none, []⟩ : Account) ∉
      (getValidAccounts ⟨[⟨some "u", some "s", some "ua", none, []⟩] ++
        (⟨some "b", some "s", none, none, []⟩ : Account) :: []⟩).1 ∧
    (getValidAccounts ⟨[⟨some "u", some "s", some "ua", none, []⟩] ++
        (⟨some "b", some "s", none, none, []⟩ : Account) :: []⟩).1 =
      (getValidAccounts ⟨[⟨some "u", some "s", some "ua", none, []⟩] ++ []⟩).1) :=
  claim5_validateAccount ⟨some "u", some "s", some "ua", none, []⟩
    ⟨some "b", some "s", none, none, []⟩
    [⟨some "u", some "s", some "ua", none, []⟩] [] (by decide)

/-- C7: `shuffle(xs)` returns a permutation of `xs` (same multiset,
same length) for every input, including empty and single-element
lists; and, at the heap level, it does not mutate its argument array:
the argument's cell is unchanged after the call and the returned
reference is a fresh one (a new sequence) whose content is a
permutation of the argument's. -/
theorem claim7_shuffle (rand : Nat → ℚ) (xs : List α) (h : Heap β)
    (arr : Nat) (hlt : arr < h.cells.length) :
    List.Perm (shuffleArray rand xs) xs ∧
    (shuffleArray rand xs).length = xs.length ∧
    (shuffleArrayH rand h arr).1.read arr = h.read arr ∧
    (shuffleArrayH rand h arr).2 ≠ arr ∧
    List.Perm
      ((shuffleArrayH rand h arr).1.read (shuffleArrayH rand h arr).2)
      (h.read arr) := by
  have hp := shuffleArray_perm rand xs
  have hres := shuffleArrayH_result rand h arr
  refine ⟨hp, hp.length_eq, shuffleArrayH_frame rand h arr arr hlt,
    ?_, ?_⟩
  · rw [hres.1]
    omega
  · rw [hres.2]
    exact shuffleArray_perm rand (h.read arr)

/-- C7 witness: the theorem applied to `xs = [1, 2, 3]` and a
one-cell heap. -/
theorem claim7_witness :
    List.Perm (shuffleArray (fun _ => 1/2) [1, 2, 3]) [1, 2, 3] ∧
    (shuffleArray (fun _ => 1/2) ([1, 2, 3] : List ℕ)).length =
      ([1, 2, 3] : List ℕ).length ∧
    (shuffleArrayH (fun _ => 1/2) (⟨[["a", "b"]]⟩ : Heap String) 0).1.read 0 =
      (⟨[["a", "b"]]⟩ : Heap String).read 0 ∧
    (shuffleArrayH (fun _ => 1/2) (⟨[["a", "b"]]⟩ : Heap String) 0).2 ≠ 0 ∧
    List.Perm
      ((shuffleArrayH (fun _ => 1/2) (⟨[["a", "b"]]⟩ : Heap String) 0).1.read
        (shuffleArrayH (fun _ => 1/2) (⟨[["a", "b"]]⟩ : Heap String) 0).2)
      ((⟨[["a", "b"]]⟩ : Heap String).read 0) :=
  claim7_shuffle (fun _ => 1/2) [1, 2, 3] ⟨[["a", "b"]]⟩ 0
    (by decide)

/-- C10: `getValidAccounts` returns exactly the stored accounts
satisfying `validateAccount`, as an order-preserving subsequence of
the stored list (no duplication, no reordering), and leaves the
stored account list unchanged. -/
theorem claim10_getValidAccounts (m : AccountManager) :
    (getValidAccounts m).2 = m ∧
    List.Sublist (getValidAccounts m).1 m.accounts ∧
    (∀ a, a ∈ (getValidAccounts m).1 ↔
      a ∈ m.accounts ∧ validateAccount a = true) :=
  ⟨rfl, List.filter_sublist m.accounts, fun _ => List.mem_filter⟩

/-- C9: no executor entry point mutates the campaign configuration:
after any run of `massComment` (including with `randomizeOrder`
enabled, which shuffles a copy), the config's `comments` array cell is
unchanged, and the run's outcome is exactly that of the pure
`massComment` on the config's pre-call comment list. -/
theorem claim9_massComment_config (rand drand : Nat → ℚ)
    (clients : List (Client ρ)) (cfg : MassCommentConfig)
    (h : Heap String) (commentsRef : Nat)
    (hlt : commentsRef < h.cells.length) :
    (massCommentH rand drand clients cfg h commentsRef).2.read
        commentsRef = h.read commentsRef ∧
    (massCommentH rand drand clients cfg h commentsRef).1 =
      massComment rand drand clients
        { cfg with comments := h.read commentsRef } := by
  cases hres : resolveVideoId cfg with
  | none =>
    have hres' :
        resolveVideoId { cfg with comments := h.read commentsRef } =
          none := hres
    simp only [massCommentH, massComment, hres, hres']
    refine ⟨?_, ?_⟩ <;> first | trivial | rfl
  | some v =>
    have hres' :
        resolveVideoId { cfg with comments := h.read commentsRef } =
          some v := hres
    have hc1 : (h.alloc (h.read commentsRef)).2 <
        (h.alloc (h.read commentsRef)).1.cells.length := by
      simp [Heap.alloc]
    have hlt1 : commentsRef <
        (h.alloc (h.read commentsRef)).1.cells.length := by
      simp only [Heap.alloc]
      simp only [List.length_append, List.length_cons, List.length_nil]
      omega
    simp only [massCommentH, massComment, hres, hres',
      massCommentComments]
    by_cases hro : cfg.randomizeOrder
    · simp only [hro, if_true]
      constructor
      · rw [shuffleArrayH_frame rand _ _ commentsRef hlt1]
        exact Heap.read_alloc_lt h _ commentsRef hlt
      · have hr2 := shuffleArrayH_result rand
          (h.alloc (h.read commentsRef)).1 (h.alloc (h.read commentsRef)).2
        rw [hr2.2, Heap.read_alloc_self]
    · simp only [hro, Bool.false_eq_true, if_false]
      constructor
      · exact Heap.read_alloc_lt h _ commentsRef hlt
      · rw [Heap.read_alloc_self]

/-- C9 witness: the theorem applied to two concrete clients, a
shuffling config and a one-cell heap holding the comment list. -/
theorem claim9_witness :
    (massCommentH (fun _ => 0) (fun _ => 0) [ceClientFail, ceClientOk]
        ⟨some "123", none, [], true, none, none⟩
        (⟨[["hi", "yo"]]⟩ : Heap String) 0).2.read 0 =
      (⟨[["hi", "yo"]]⟩ : Heap String).read 0 ∧
    (massCommentH (fun _ => 0) (fun _ => 0) [ceClientFail, ceClientOk]
        ⟨some "123", none, [], true, none, none⟩
        (⟨[["hi", "yo"]]⟩ : Heap String) 0).1 =
      massComment (fun _ => 0) (fun _ => 0) [ceClientFail, ceClientOk]
        { videoId := some "123", videoUrl := none,
          comments := (⟨[["hi", "yo"]]⟩ : Heap String).read 0,
          randomizeOrder := true,
          delayBetweenCommentsMin := none,
          delayBetweenCommentsMax := none } :=
  claim9_massComment_config (fun _ => 0) (fun _ => 0)
    [ceClientFail, ceClientOk] ⟨some "123", none, [], true, none, none⟩
    ⟨[["hi", "yo"]]⟩ 0 (by decide)

/-- C1: with a resolvable target, `massComment` and `massLikeComment`
return a report with exactly one entry per session, in input order
(the entry at index `idx` names session `idx`'s account and is decided
by that session's unit of work); the number of `success = true`
entries plus the number of throwing units of work equals the number of
sessions (i.e. successes are exactly `N - k`); and every failed entry
carries the thrown error's message. -/
theorem claim1_massReport (rand drand drandL : Nat → ℚ)
    (clients clientsL : List (Client ρ)) (cfg : MassCommentConfig)
    (lcfg : MassLikeConfig) (v cid : String)
    (hv : resolveVideoId cfg = some v)
    (hcid : resolveCommentId lcfg = some cid) :
    (∃ rs ds, massComment rand drand clients cfg = .ok (rs, ds) ∧
      rs.length = clients.length ∧
      rs.countP (fun r => r.success) +
        (mcOutcomes v (massCommentComments rand cfg) clients 0).countP
          (fun o => exceptFailed o) = clients.length ∧
      ∀ (idx : Nat) (c : Client ρ), clients[idx]? = some c →
        (∀ p, c.postComment v
            (commentAt (massCommentComments rand cfg) idx) = .ok p →
          rs[idx]? = some ⟨c.username, true,
            commentAt (massCommentComments rand cfg) idx, none⟩) ∧
        (∀ m, c.postComment v
            (commentAt (massCommentComments rand cfg) idx) = .error m →
          rs[idx]? = some ⟨c.username, false, none, some m⟩)) ∧
    (∃ rs ds, massLikeComment drandL clientsL lcfg = .ok (rs, ds) ∧
      rs.length = clientsL.length ∧
      rs.countP (fun r => r.success) +
        (mlOutcomes cid clientsL).countP (fun o => exceptFailed o) =
          clientsL.length ∧
      ∀ (idx : Nat) (c : Client ρ), clientsL[idx]? = some c →
        (∀ p, c.likeComment cid 1 = .ok p →
          rs[idx]? = some ⟨c.username, true, none⟩) ∧
        (∀ m, c.likeComment cid 1 = .error m →
          rs[idx]? = some ⟨c.username, false, some m⟩)) := by
  constructor
  · refine ⟨(massCommentGo drand v (massCommentComments rand cfg)
        (jsOrInt cfg.delayBetweenCommentsMin 5000)
        (jsOrInt cfg.delayBetweenCommentsMax 15000)
        clients.length clients 0).1,
      (massCommentGo drand v (massCommentComments rand cfg)
        (jsOrInt cfg.delayBetweenCommentsMin 5000)
        (jsOrInt cfg.delayBetweenCommentsMax 15000)
        clients.length clients 0).2, ?_, ?_, ?_, ?_⟩
    · simp only [massComment, hv]
    · exact (massCommentGo_length drand v (massCommentComments rand cfg)
        (jsOrInt cfg.delayBetweenCommentsMin 5000)
        (jsOrInt cfg.delayBetweenCommentsMax 15000)
        clients.length clients 0).1
    · exact massCommentGo_countP drand v (massCommentComments rand cfg)
        (jsOrInt cfg.delayBetweenCommentsMin 5000)
        (jsOrInt cfg.delayBetweenCommentsMax 15000)
        clients.length clients 0
    · intro idx c hc
      have hget := (massCommentGo_get? drand v
        (massCommentComments rand cfg)
        (jsOrInt cfg.delayBetweenCommentsMin 5000)
        (jsOrInt cfg.delayBetweenCommentsMax 15000)
        clients.length clients 0 idx c hc).1
      simp only [Nat.zero_add] at hget
      constructor
      · intro p hp
        rw [hget]
        simp only [hp]
      · intro m hm
        rw [hget]
        simp only [hm]
  · refine ⟨(massLikeGo drandL cid
        (jsOrInt lcfg.delayBetweenLikesMin 3000)
        (jsOrInt lcfg.delayBetweenLikesMax 10000)
        clientsL.length clientsL 0).1,
      (massLikeGo drandL cid
        (jsOrInt lcfg.delayBetweenLikesMin 3000)
        (jsOrInt lcfg.delayBetweenLikesMax 10000)
        clientsL.length clientsL 0).2, ?_, ?_, ?_, ?_⟩
    · simp only [massLikeComment, hcid]
    · exact (massLikeGo_length drandL cid
        (jsOrInt lcfg.delayBetweenLikesMin 3000)
        (jsOrInt lcfg.delayBetweenLikesMax 10000)
        clientsL.length clientsL 0).1
    · exact massLikeGo_countP drandL cid
        (jsOrInt lcfg.delayBetweenLikesMin 3000)
        (jsOrInt lcfg.delayBetweenLikesMax 10000)
        clientsL.length clientsL 0
    · intro idx c hc
      have hget := (massLikeGo_get? drandL cid
        (jsOrInt lcfg.delayBetweenLikesMin 3000)
        (jsOrInt lcfg.delayBetweenLikesMax 10000)
        clientsL.length clientsL 0 idx c hc).1
      simp only [Nat.zero_add] at hget
      constructor
      · intro p hp
        rw [hget]
        simp only [hp]
      · intro m hm
        rw [hget]
        simp only [hm]

/-- C1 witness: the theorem applied to two comment clients (one of
which throws) and one like client, with direct target ids. -/
theorem claim1_witness :
    (∃ rs ds, massComment (fun _ => 0) (fun _ => 0)
        [ceClientFail, ceClientOk] ceCfg = .ok (rs, ds) ∧
      rs.length = [ceClientFail, ceClientOk].length ∧
      rs.countP (fun r => r.success) +
        (mcOutcomes "123"
          (massCommentComments (fun _ => 0) ceCfg)
          [ceClientFail, ceClientOk] 0).countP
          (fun o => exceptFailed o) = [ceClientFail, ceClientOk].length ∧
      ∀ (idx : Nat) (c : Client Unit), [ceClientFail, ceClientOk][idx]? = some c →
        (∀ p, c.postComment "123"
            (commentAt (massCommentComments (fun _ => 0) ceCfg) idx) = .ok p →
          rs[idx]? = some ⟨c.username, true,
            commentAt (massCommentComments (fun _ => 0) ceCfg) idx, none⟩) ∧
        (∀ m, c.postComment "123"
            (commentAt (massCommentComments (fun _ => 0) ceCfg) idx) = .error m →
          rs[idx]? = some ⟨c.username, false, none, some m⟩)) ∧
    (∃ rs ds, massLikeComment (fun _ => 0) [ceClientOk] ceLikeCfg =
        .ok (rs, ds) ∧
      rs.length = [ceClientOk].length ∧
      rs.countP (fun r => r.success) +
        (mlOutcomes "c9" [ceClientOk]).countP (fun o => exceptFailed o) =
          [ceClientOk].length ∧
      ∀ (idx : Nat) (c : Client Unit), [ceClientOk][idx]? = some c →
        (∀ p, c.likeComment "c9" 1 = .ok p →
          rs[idx]? = some ⟨c.username, true, none⟩) ∧
        (∀ m, c.likeComment "c9" 1 = .error m →
          rs[idx]? = some ⟨c.username, false, some m⟩)) :=
  claim1_massReport (fun _ => 0) (fun _ => 0) (fun _ => 0)
    [ceClientFail, ceClientOk] [ceClientOk] ceCfg ceLikeCfg "123" "c9"
    rfl rfl

/-- C2 counterexample: two sessions, the first one's unit of work
throws; the run reports `[none, none]` as the per-session delay slots,
so no inter-session delay was awaited between session 0 and session 1
even though session 0 is non-final — the delay is skipped on the
failure path (the `await randomDelay` sits inside the `try`, after the
success entry is pushed). -/
theorem claim2_counterexample :
    massComment (fun _ => 0) (fun _ => 0) [ceClientFail, ceClientOk]
        ceCfg =
      .ok ([⟨"alice", false, none, some "boom"⟩,
            ⟨"bob", true, some "hi", none⟩],
           [none, none]) := by
  rfl

/-- C2 (amended): in every `massComment`/`massLikeComment` run with a
resolvable target, the inter-session delay is awaited after session
`idx` exactly when session `idx` is non-final AND its unit of work
succeeded; on the failure path the delay is skipped. -/
theorem claim2_delays (rand drand drandL : Nat → ℚ)
    (clients clientsL : List (Client ρ)) (cfg : MassCommentConfig)
    (lcfg : MassLikeConfig) (v cid : String)
    (hv : resolveVideoId cfg = some v)
    (hcid : resolveCommentId lcfg = some cid) :
    (∃ rs ds, massComment rand drand clients cfg = .ok (rs, ds) ∧
      ds.length = clients.length ∧
      ∀ (idx : Nat) (r : MCResult), rs[idx]? = some r →
        ds[idx]? = some
          (if r.success = true ∧ idx + 1 < clients.length
           then some (randomDelayDuration (drand idx)
             (jsOrInt cfg.delayBetweenCommentsMin 5000)
             (jsOrInt cfg.delayBetweenCommentsMax 15000))
           else none)) ∧
    (∃ rs ds, massLikeComment drandL clientsL lcfg = .ok (rs, ds) ∧
      ds.length = clientsL.length ∧
      ∀ (idx : Nat) (r : MLResult), rs[idx]? = some r →
        ds[idx]? = some
          (if r.success = true ∧ idx + 1 < clientsL.length
           then some (randomDelayDuration (drandL idx)
             (jsOrInt lcfg.delayBetweenLikesMin 3000)
             (jsOrInt lcfg.delayBetweenLikesMax 10000))
           else none)) := by
  constructor
  · refine ⟨(massCommentGo drand v (massCommentComments rand cfg)
        (jsOrInt cfg.delayBetweenCommentsMin 5000)
        (jsOrInt cfg.delayBetweenCommentsMax 15000)
        clients.length clients 0).1,
      (massCommentGo drand v (massCommentComments rand cfg)
        (jsOrInt cfg.delayBetweenCommentsMin 5000)
        (jsOrInt cfg.delayBetweenCommentsMax 15000)
        clients.length clients 0).2, ?_, ?_, ?_⟩
    · simp only [massComment, hv]
    · exact (massCommentGo_length drand v (massCommentComments rand cfg)
        (jsOrInt cfg.delayBetweenCommentsMin 5000)
        (jsOrInt cfg.delayBetweenCommentsMax 15000)
        clients.length clients 0).2
    · intro idx r hrs
      have hlen := (massCommentGo_length drand v
        (massCommentComments rand cfg)
        (jsOrInt cfg.delayBetweenCommentsMin 5000)
        (jsOrInt cfg.delayBetweenCommentsMax 15000)
        clients.length clients 0).1
      have hsome : idx < clients.length := by
        by_contra hge
        push_neg at hge
        rw [List.getElem?_eq_none (by omega)] at hrs
        exact Option.noConfusion hrs
      have hc : clients[idx]? = some clients[idx] :=
        List.getElem?_eq_getElem hsome
      have hget := massCommentGo_get? drand v
        (massCommentComments rand cfg)
        (jsOrInt cfg.delayBetweenCommentsMin 5000)
        (jsOrInt cfg.delayBetweenCommentsMax 15000)
        clients.length clients 0 idx clients[idx] hc
      simp only [Nat.zero_add] at hget
      cases ho : clients[idx].postComment v
          (commentAt (massCommentComments rand cfg) idx) with
      | ok p =>
        simp only [ho] at hget
        rw [hget.1, Option.some.injEq] at hrs
        rw [hget.2, ← hrs]
        simp
      | error m =>
        simp only [ho] at hget
        rw [hget.1, Option.some.injEq] at hrs
        rw [hget.2, ← hrs]
        simp
  · refine ⟨(massLikeGo drandL cid
        (jsOrInt lcfg.delayBetweenLikesMin 3000)
        (jsOrInt lcfg.delayBetweenLikesMax 10000)
        clientsL.length clientsL 0).1,
      (massLikeGo drandL cid
        (jsOrInt lcfg.delayBetweenLikesMin 3000)
        (jsOrInt lcfg.delayBetweenLikesMax 10000)
        clientsL.length clientsL 0).2, ?_, ?_, ?_⟩
    · simp only [massLikeComment, hcid]
    · exact (massLikeGo_length drandL cid
        (jsOrInt lcfg.delayBetweenLikesMin 3000)
        (jsOrInt lcfg.delayBetweenLikesMax 10000)
        clientsL.length clientsL 0).2
    · intro idx r hrs
      have hlen := (massLikeGo_length drandL cid
        (jsOrInt lcfg.delayBetweenLikesMin 3000)
        (jsOrInt lcfg.delayBetweenLikesMax 10000)
        clientsL.length clientsL 0).1
      have hsome : idx < clientsL.length := by
        by_contra hge
        push_neg at hge
        rw [List.getElem?_eq_none (by omega)] at hrs
        exact Option.noConfusion hrs
      have hc : clientsL[idx]? = some clientsL[idx] :=
        List.getElem?_eq_getElem hsome
      have hget := massLikeGo_get? drandL cid
        (jsOrInt lcfg.delayBetweenLikesMin 3000)
        (jsOrInt lcfg.delayBetweenLikesMax 10000)
        clientsL.length clientsL 0 idx clientsL[idx] hc
      simp only [Nat.zero_add] at hget
      cases ho : clientsL[idx].likeComment cid 1 with
      | ok p =>
        simp only [ho] at hget
        rw [hget.1, Option.some.injEq] at hrs
        rw [hget.2, ← hrs]
        simp
      | error m =>
        simp only [ho] at hget
        rw [hget.1, Option.some.injEq] at hrs
        rw [hget.2, ← hrs]
        simp

/-- C2 witness: the amended theorem applied to the
fail-then-succeed client pair. -/
theorem claim2_witness :
    (∃ rs ds, massComment (fun _ => 0) (fun _ => 0)
        [ceClientFail, ceClientOk] ceCfg = .ok (rs, ds) ∧
      ds.length = [ceClientFail, ceClientOk].length ∧
      ∀ (idx : Nat) (r : MCResult), rs[idx]? = some r →
        ds[idx]? = some
          (if r.success = true ∧ idx + 1 < [ceClientFail, ceClientOk].length
           then some (randomDelayDuration 0
             (jsOrInt ceCfg.delayBetweenCommentsMin 5000)
             (jsOrInt ceCfg.delayBetweenCommentsMax 15000))
           else none)) ∧
    (∃ rs ds, massLikeComment (fun _ => 0) [ceClientOk] ceLikeCfg =
        .ok (rs, ds) ∧
      ds.length = [ceClientOk].length ∧
      ∀ (idx : Nat) (r : MLResult), rs[idx]? = some r →
        ds[idx]? = some
          (if r.success = true ∧ idx + 1 < [ceClientOk].length
           then some (randomDelayDuration 0
             (jsOrInt ceLikeCfg.delayBetweenLikesMin 3000)
             (jsOrInt ceLikeCfg.delayBetweenLikesMax 10000))
           else none)) :=
  claim2_delays (fun _ => 0) (fun _ => 0) (fun _ => 0)
    [ceClientFail, ceClientOk] [ceClientOk] ceCfg ceLikeCfg "123" "c9"
    rfl rfl

/-- C8: in `massComment` with `m ≥ 1` configured comments and more
sessions than comments, session `idx`'s unit of work receives the
comment at index `idx % m` of the comment list taken after the
optional shuffle, and a successful entry records exactly that
comment — comments are reused cyclically. -/
theorem claim8_cyclic (rand drand : Nat → ℚ)
    (clients : List (Client ρ)) (cfg : MassCommentConfig) (v : String)
    (hv : resolveVideoId cfg = some v)
    (hm : 0 < cfg.comments.length)
    (hN : cfg.comments.length < clients.length) :
    ∃ rs ds, massComment rand drand clients cfg = .ok (rs, ds) ∧
      ∀ (idx : Nat) (c : Client ρ), clients[idx]? = some c →
        (∀ p, c.postComment v
            ((massCommentComments rand cfg)[idx % cfg.comments.length]?) =
              .ok p →
          rs[idx]? = some ⟨c.username, true,
            (massCommentComments rand cfg)[idx % cfg.comments.length]?,
            none⟩) ∧
        (∀ m, c.postComment v
            ((massCommentComments rand cfg)[idx % cfg.comments.length]?) =
              .error m →
          rs[idx]? = some ⟨c.username, false, none, some m⟩) := by
  have hlen : (massCommentComments rand cfg).length =
      cfg.comments.length := by
    rw [massCommentComments]
    by_cases hro : cfg.randomizeOrder
    · simp [hro, (shuffleArray_perm rand cfg.comments).length_eq]
    · simp [hro]
  have hAt : ∀ idx, commentAt (massCommentComments rand cfg) idx =
      (massCommentComments rand cfg)[idx % cfg.comments.length]? := by
    intro idx
    rw [commentAt, hlen, if_neg (by omega)]
  refine ⟨(massCommentGo drand v (massCommentComments rand cfg)
      (jsOrInt cfg.delayBetweenCommentsMin 5000)
      (jsOrInt cfg.delayBetweenCommentsMax 15000)
      clients.length clients 0).1,
    (massCommentGo drand v (massCommentComments rand cfg)
      (jsOrInt cfg.delayBetweenCommentsMin 5000)
      (jsOrInt cfg.delayBetweenCommentsMax 15000)
      clients.length clients 0).2, ?_, ?_⟩
  · simp only [massComment, hv]
  · intro idx c hc
    have hget := (massCommentGo_get? drand v
      (massCommentComments rand cfg)
      (jsOrInt cfg.delayBetweenCommentsMin 5000)
      (jsOrInt cfg.delayBetweenCommentsMax 15000)
      clients.length clients 0 idx c hc).1
    simp only [Nat.zero_add, hAt] at hget
    constructor
    · intro p hp
      rw [hget]
      simp only [hp]
    · intro m hm
      rw [hget]
      simp only [hm]

/-- C8 witness: the theorem applied to three clients and a one-comment
config: every session receives comment `idx % 1 = 0`. -/
theorem claim8_witness :
    ∃ rs ds, massComment (fun _ => 0) (fun _ => 0)
        [ceClientFail, ceClientOk, ceClientOk] ceCfg = .ok (rs, ds) ∧
      ∀ (idx : Nat) (c : Client Unit), [ceClientFail, ceClientOk, ceClientOk][idx]? = some c →
        (∀ p, c.postComment "123"
            ((massCommentComments (fun _ => 0) ceCfg)[idx %
              ceCfg.comments.length]?) = .ok p →
          rs[idx]? = some ⟨c.username, true,
            (massCommentComments (fun _ => 0) ceCfg)[idx %
              ceCfg.comments.length]?, none⟩) ∧
        (∀ m, c.postComment "123"
            ((massCommentComments (fun _ => 0) ceCfg)[idx %
              ceCfg.comments.length]?) = .error m →
          rs[idx]? = some ⟨c.username, false, none, some m⟩) :=
  claim8_cyclic (fun _ => 0) (fun _ => 0)
    [ceClientFail, ceClientOk, ceClientOk] ceCfg "123" rfl
    (by decide) (by decide)

end TiktokBot
